import Mathlib

/-!
Verification of the directory-watch and dispatch engine of tgcloudbot.

The Go sources are shallowly embedded: the watcher (package file), the
sync service (package sync) and the Go standard-library helpers they use
(filepath.Walk, filepath.Ext, filepath.Base, strings.ToLower restricted
to ASCII). Machine integers (int64 sizes) become Int, time.Time becomes
Nat (monotone clock ticks), regexp matchers become Bool-valued
predicates on paths, and the filesystem becomes an explicit snapshot:
a stat function plus a walk tree per root.
-/

/-- Result of os.Stat: file size, modification time, directory flag. -/
structure FileInfo where
  size : Int
  modTime : Nat
  isDir : Bool
deriving DecidableEq, Repr

/-- The watcher's per-file record (struct watchedFile in package file). -/
structure WatchedFile where
  modTime : Nat
  lastSync : Nat
  path : String
  size : Int
deriving DecidableEq, Repr

/-- The watchedFiles map of IWatcher, path-keyed. -/
abbrev FileMap := String → Option WatchedFile

/-- IWatcher.isBlacklisted: loops over the deny matchers and breaks at
the first match; a path is blacklisted iff some deny matcher fires. -/
def isBlacklisted : List (String → Bool) → String → Bool
  | [], _ => false
  | re :: rest, filePath => if re filePath then true else isBlacklisted rest filePath

/-- IWatcher.isWhitelisted: conjunction over all allow matchers,
starting from true (so an empty allow set accepts every path). -/
def isWhitelisted (whitelistRegexp : List (String → Bool)) (filePath : String) : Bool :=
  whitelistRegexp.foldl (fun acc re => acc && re filePath) true

/-- Go strings.ToLower, restricted to ASCII letters (the only case the
extension tables exercise). -/
def goToLower (s : String) : String :=
  String.mk (s.toList.map Char.toLower)

/-- Helper for goExt: scan the reversed character list until the final
dot of the final path element; stop at a path separator. -/
def extAux : List Char → List Char → Option (List Char)
  | [], _ => none
  | c :: rest, acc =>
    if c = '/' then none
    else if c = '.' then some (c :: acc)
    else extAux rest (c :: acc)

/-- Go path/filepath.Ext: the suffix beginning at the final dot in the
final slash-separated element of the path; empty if there is no dot. -/
def goExt (path : String) : String :=
  match extAux path.toList.reverse [] with
  | none => ""
  | some cs => String.mk cs

/-- Go path/filepath.Base: the last element of the path after stripping
trailing separators; "." for the empty path, "/" if the path is all
separators. -/
def goBase (path : String) : String :=
  if path = "" then "."
  else
    let stripped := path.toList.reverse.dropWhile (fun c => c = '/')
    let base := stripped.takeWhile (fun c => c ≠ '/')
    if base = [] then "/" else String.mk base.reverse

/-- The filesystem tree seen by filepath.Walk under one root: a regular
file with its stat info, a readable directory with its entries, or an
entry whose lstat/access fails. -/
inductive WalkNode where
  | file (path : String) (info : FileInfo)
  | dir (path : String) (info : FileInfo) (entries : List WalkNode)
  | inaccessible (path : String)

/-- The walk callback passed by IWatcher.scanDirectory to filepath.Walk:
on any access error it returns nil (skipping that entry); otherwise it
appends the path when the entry is not a directory, and returns nil. -/
def walkFn (files : List String) (path : String) (info : Option FileInfo)
    (errIn : Option String) : List String × Option String :=
  match errIn with
  | some _ => (files, none)
  | none =>
    match info with
    | some i => (if i.isDir then files else files ++ [path], none)
    | none => (files, none)

mutual
/-- Go filepath.Walk specialised to scanDirectory's callback: visit one
node, handing access errors to the callback, descending into readable
directories and aborting on a non-nil callback result. -/
def goWalkNode (files : List String) : WalkNode → List String × Option String
  | .inaccessible p => walkFn files p none (some "access error")
  | .file p i => walkFn files p (some i) none
  | .dir p i es =>
    match walkFn files p (some i) none with
    | (files2, some e) => (files2, some e)
    | (files2, none) => goWalkList files2 es

/-- Walk a directory's entry list in order, stopping at the first
non-nil callback result. -/
def goWalkList (files : List String) : List WalkNode → List String × Option String
  | [] => (files, none)
  | n :: rest =>
    match goWalkNode files n with
    | (files2, some e) => (files2, some e)
    | (files2, none) => goWalkList files2 rest
end

/-- IWatcher.scanDirectory: filepath.Walk from the root with the
error-swallowing, file-collecting callback; returns the collected paths
and the walk's error result. -/
def scanDirectory (root : WalkNode) : List String × Option String :=
  goWalkNode [] root

/-- One iteration of the inner loop of IWatcher.GetUpdatedFiles for a
single candidate path: stat it (skip on failure), drop it when
blacklisted or not whitelisted, then create or update its watchedFiles
record and append it to updatedFiles when it is new or modified. -/
def processFile (stat : String → Option FileInfo)
    (blacklistRegexp whitelistRegexp : List (String → Bool)) (now : Nat)
    (watchedFiles : FileMap) (updatedFiles : List String) (filePath : String) :
    FileMap × List String :=
  match stat filePath with
  | none => (watchedFiles, updatedFiles)
  | some info =>
    if isBlacklisted blacklistRegexp filePath || !(isWhitelisted whitelistRegexp filePath) then
      (watchedFiles, updatedFiles)
    else
      match watchedFiles filePath with
      | none =>
        (fun q => if q = filePath then
            some ⟨info.modTime, now, filePath, info.size⟩
          else watchedFiles q,
         updatedFiles ++ [filePath])
      | some watched =>
        if watched.modTime < info.modTime ∨ info.size ≠ watched.size then
          (fun q => if q = filePath then
              some ⟨info.modTime, now, watched.path, info.size⟩
            else watchedFiles q,
           updatedFiles ++ [filePath])
        else
          (watchedFiles, updatedFiles)

/-- One iteration of the outer loop of IWatcher.GetUpdatedFiles: scan
one watched directory, skip it entirely when the scan errors, otherwise
run the per-file step over every scanned path in order. -/
def processDir (tree : String → WalkNode) (stat : String → Option FileInfo)
    (blacklistRegexp whitelistRegexp : List (String → Bool)) (now : Nat)
    (st : FileMap × List String) (dirPath : String) : FileMap × List String :=
  match scanDirectory (tree dirPath) with
  | (_, some _) => st
  | (files, none) =>
    files.foldl
      (fun acc p => processFile stat blacklistRegexp whitelistRegexp now acc.1 acc.2 p) st

/-- IWatcher.GetUpdatedFiles: fold the per-directory pass over the
watched directories (iteration order fixed to registration order) and
return the updated-file list, the new watchedFiles map, and the
function's error result, which the source always returns as nil. -/
def getUpdatedFiles (tree : String → WalkNode) (stat : String → Option FileInfo)
    (blacklistRegexp whitelistRegexp : List (String → Bool)) (now : Nat)
    (watchedDirs : List String) (watchedFiles : FileMap) :
    List String × FileMap × Option String :=
  let r := watchedDirs.foldl (processDir tree stat blacklistRegexp whitelistRegexp now)
    (watchedFiles, [])
  (r.2, r.1, none)

/-- IWatcher.AddDir: return nil at once when the path is already
watched; otherwise stat it, fail when the stat fails or the path is not
a directory, and otherwise record it. The registry is kept as the list
of registered paths in registration order. -/
def addDir (stat : String → Option FileInfo) (watchedDirs : List String)
    (path : String) : Except String (List String) :=
  if watchedDirs.contains path then .ok watchedDirs
  else
    match stat path with
    | none => .error ("failed to stat directory: " ++ path)
    | some info =>
      if !info.isDir then .error ("path is not a directory: " ++ path)
      else .ok (watchedDirs ++ [path])

/-- The Uploader capability consumed by the sync service (telegram
Client restricted to the methods SyncFile uses); each send returns a
delivery receipt or an error. -/
structure Uploader (α : Type) where
  sendAudio : String → String → String → Except String α
  sendPhoto : String → String → String → Except String α
  sendVideo : String → String → String → Except String α
  sendDocument : String → String → String → Except String α

/-- The audio extension table of SyncService.SyncFile. -/
def audioExts : List String := [".mp3", ".wav", ".ogg", ".m4a", ".flac", ".aac", ".opus"]

/-- The photo extension table of SyncService.SyncFile. -/
def photoExts : List String := [".jpg", ".jpeg", ".png", ".gif", ".webp", ".bmp"]

/-- The video extension table of SyncService.SyncFile. -/
def videoExts : List String := [".mp4", ".avi", ".mov", ".mkv", ".webm", ".flv", ".wmv"]

/-- How each send branch of SyncFile treats the Uploader's result:
discard the receipt, wrap an error with the category context. -/
def sendOutcome (r : Except String α) (ctxMsg : String) : Option String :=
  match r with
  | .error e => some (ctxMsg ++ e)
  | .ok _ => none

/-- SyncService.SyncFile: reject the empty path, classify by the
lower-cased extension against the fixed tables, build the caption from
the base name, call the matching Uploader method and return its error
wrapped with the category context, or nil on success (the receipt is
discarded). -/
def syncFile (bot : Uploader α) (chatID filePath : String) : Option String :=
  if filePath = "" then some "filePath cannot be empty"
  else
    let ext := goToLower (goExt filePath)
    let caption := "File: " ++ goBase filePath
    if audioExts.contains ext then
      sendOutcome (bot.sendAudio chatID filePath caption) "failed to send audio: "
    else if photoExts.contains ext then
      sendOutcome (bot.sendPhoto chatID filePath caption) "failed to send photo: "
    else if videoExts.contains ext then
      sendOutcome (bot.sendVideo chatID filePath caption) "failed to send video: "
    else
      sendOutcome (bot.sendDocument chatID filePath caption) "failed to send document: "

/-- The dispatch loop of SyncService.syncDirectoryOnce over the batch
returned by GetUpdatedFiles: skip empty paths, return the context error
when the shutdown signal is raised, otherwise dispatch via SyncFile,
log-and-continue on a dispatch error. The result records every SyncFile
call made (path and outcome, in order) and the loop's returned error. -/
def syncLoop (bot : Uploader α) (chatID : String) (ctxDone : Bool) :
    List String → List (String × Option String) × Option String
  | [] => ([], none)
  | filePath :: rest =>
    if filePath = "" then syncLoop bot chatID ctxDone rest
    else if ctxDone then ([], some "context canceled")
    else
      let r := syncLoop bot chatID ctxDone rest
      ((filePath, syncFile bot chatID filePath) :: r.1, r.2)

/-- SyncService.syncDirectoryOnce: one Diff pass over the watcher state
(which already updates the watchedFiles records), then the dispatch
loop over the reported batch. Returns the watcher map as GetUpdatedFiles
left it, the dispatch attempts, and the cycle's error result. -/
def syncDirectoryOnce (tree : String → WalkNode) (stat : String → Option FileInfo)
    (blacklistRegexp whitelistRegexp : List (String → Bool)) (now : Nat)
    (bot : Uploader α) (chatID : String) (ctxDone : Bool)
    (watchedDirs : List String) (watchedFiles : FileMap) :
    FileMap × List (String × Option String) × Option String :=
  let g := getUpdatedFiles tree stat blacklistRegexp whitelistRegexp now
    watchedDirs watchedFiles
  let l := syncLoop bot chatID ctxDone g.1
  (g.2.1, l.1, l.2)

/-- Where one poller goroutine of StartContinuousSync currently stands:
blocked in its select over the ticker and ctx.Done, inside the dispatch
loop of syncDirectoryOnce with the files still to handle, or returned. -/
inductive PollerPhase where
  | selecting
  | cycling (pending : List String)
  | exited
deriving DecidableEq, Repr

/-- The concurrent state of the sync service: whether Stop's cancel()
has run, whether Stop's wg.Wait() has returned, and each poller's
phase. -/
structure SyncSys where
  cancelled : Bool
  stopReturned : Bool
  pollers : List PollerPhase
deriving DecidableEq, Repr

/-- Observable events of the sync service's concurrent execution. -/
inductive SyncLabel where
  | tick (i : Nat) (batch : List String)
  | observeDone (i : Nat)
  | dispatch (i : Nat) (filePath : String)
  | skipEmpty (i : Nat)
  | abandonCycle (i : Nat)
  | cycleEnd (i : Nat)
  | cancel
  | stopReturn
deriving DecidableEq, Repr

/-- Interleaving semantics of the goroutines of sync.go. A selecting
poller may take the ticker branch even when the context is already
cancelled (Go's select chooses among ready cases); per file, the
dispatch loop first skips empty paths, then consults ctx.Done: when the
context is live it calls SyncFile (label dispatch), when cancelled it
returns ctx.Err and the goroutine loops back to its select, abandoning
the rest of the batch. Stop() first cancels the context and its
wg.Wait() returns only once every poller goroutine has exited. -/
inductive SyncStep : SyncSys → SyncLabel → SyncSys → Prop where
  | tick (s : SyncSys) (i : Nat) (batch : List String) :
      s.pollers.get? i = some .selecting →
      SyncStep s (.tick i batch)
        ⟨s.cancelled, s.stopReturned, s.pollers.set i (.cycling batch)⟩
  | observeDone (s : SyncSys) (i : Nat) :
      s.cancelled = true →
      s.pollers.get? i = some .selecting →
      SyncStep s (.observeDone i)
        ⟨s.cancelled, s.stopReturned, s.pollers.set i .exited⟩
  | skipEmpty (s : SyncSys) (i : Nat) (rest : List String) :
      s.pollers.get? i = some (.cycling ("" :: rest)) →
      SyncStep s (.skipEmpty i)
        ⟨s.cancelled, s.stopReturned, s.pollers.set i (.cycling rest)⟩
  | dispatch (s : SyncSys) (i : Nat) (filePath : String) (rest : List String) :
      filePath ≠ "" →
      s.cancelled = false →
      s.pollers.get? i = some (.cycling (filePath :: rest)) →
      SyncStep s (.dispatch i filePath)
        ⟨s.cancelled, s.stopReturned, s.pollers.set i (.cycling rest)⟩
  | abandonCycle (s : SyncSys) (i : Nat) (filePath : String) (rest : List String) :
      filePath ≠ "" →
      s.cancelled = true →
      s.pollers.get? i = some (.cycling (filePath :: rest)) →
      SyncStep s (.abandonCycle i)
        ⟨s.cancelled, s.stopReturned, s.pollers.set i .selecting⟩
  | cycleEnd (s : SyncSys) (i : Nat) :
      s.pollers.get? i = some (.cycling []) →
      SyncStep s (.cycleEnd i)
        ⟨s.cancelled, s.stopReturned, s.pollers.set i .selecting⟩
  | cancel (s : SyncSys) :
      SyncStep s .cancel ⟨true, s.stopReturned, s.pollers⟩
  | stopReturn (s : SyncSys) :
      s.cancelled = true →
      (∀ ph ∈ s.pollers, ph = .exited) →
      SyncStep s .stopReturn ⟨s.cancelled, true, s.pollers⟩

/-- Finite traces of the sync service's interleaving semantics. -/
inductive SyncSteps : SyncSys → List SyncLabel → SyncSys → Prop where
  | refl (s : SyncSys) : SyncSteps s [] s
  | head (s s2 s3 : SyncSys) (l : SyncLabel) (ls : List SyncLabel) :
      SyncStep s l s2 → SyncSteps s2 ls s3 → SyncSteps s (l :: ls) s3

/-- The state right after NewSyncService and n StartContinuousSync
calls: context live, Stop not yet returned, every poller at its
select. -/
def syncInit (n : Nat) : SyncSys :=
  ⟨false, false, List.replicate n .selecting⟩

/-- A path is blacklisted iff some deny matcher accepts it. -/
theorem isBlacklisted_iff (bl : List (String → Bool)) (p : String) :
    isBlacklisted bl p = true ↔ ∃ re ∈ bl, re p = true := by
  induction bl with
  | nil => simp [isBlacklisted]
  | cons re rest ih =>
    by_cases h : re p = true
    · simp [isBlacklisted, h]
    · simp only [isBlacklisted, h]
      simp only [Bool.not_eq_true] at h
      simp [h, ih]

/-- Generalised form of the whitelist fold. -/
theorem isWhitelisted_foldl (wl : List (String → Bool)) (p : String) (b : Bool) :
    wl.foldl (fun acc re => acc && re p) b = (b && wl.all (fun re => re p)) := by
  induction wl generalizing b with
  | nil => simp
  | cons re rest ih => simp [List.foldl_cons, ih, Bool.and_assoc]

/-- A path is whitelisted iff every allow matcher accepts it. -/
theorem isWhitelisted_iff (wl : List (String → Bool)) (p : String) :
    isWhitelisted wl p = true ↔ ∀ re ∈ wl, re p = true := by
  rw [isWhitelisted, isWhitelisted_foldl]
  simp [List.all_eq_true]

/-- The diff comparison of GetUpdatedFiles finds nothing to report for
a value stored at a path: the record exists and matches the stat
snapshot's modification time and size. -/
def entryCurrent (stat : String → Option FileInfo) (p : String)
    (v : Option WatchedFile) : Prop :=
  ∀ info, stat p = some info →
    ∃ r, v = some r ∧ ¬(r.modTime < info.modTime ∨ info.size ≠ r.size)

/-- C2: a path passes the filter gate of GetUpdatedFiles (it is neither
blacklisted nor missing from the whitelist) iff it matches every allow
matcher (vacuously when the allow set is empty) and no deny matcher;
and the deny scan short-circuits: once one deny matcher fires, the path
is blacklisted whatever deny matchers follow. -/
theorem filter_eligibility (bl wl : List (String → Bool)) (p : String) :
    ((isBlacklisted bl p || !(isWhitelisted wl p)) = false ↔
      (∀ re ∈ wl, re p = true) ∧ ∀ re ∈ bl, re p = false)
  ∧ ∀ re : String → Bool, re p = true →
      ∀ rest : List (String → Bool), isBlacklisted (re :: rest) p = true := by
  constructor
  · rw [Bool.or_eq_false_iff]
    constructor
    · rintro ⟨hb, hw⟩
      have hw2 : isWhitelisted wl p = true := by
        revert hw
        cases isWhitelisted wl p <;> simp
      refine ⟨(isWhitelisted_iff wl p).1 hw2, ?_⟩
      intro re hre
      by_contra hcon
      have hcon2 : re p = true := by
        revert hcon
        cases re p <;> simp
      have hbt : isBlacklisted bl p = true := (isBlacklisted_iff bl p).2 ⟨re, hre, hcon2⟩
      rw [hbt] at hb
      simp at hb
    · rintro ⟨hw, hb⟩
      constructor
      · have hnb : ¬ isBlacklisted bl p = true := by
          rw [isBlacklisted_iff]
          rintro ⟨re, hre, hmatch⟩
          rw [hb re hre] at hmatch
          exact Bool.false_ne_true hmatch
        revert hnb
        cases isBlacklisted bl p <;> simp
      · have hw2 : isWhitelisted wl p = true := (isWhitelisted_iff wl p).2 hw
        rw [hw2]
        rfl
  · intro re hre rest
    simp [isBlacklisted, hre]

/-- C2 witness: a concrete deny matcher that fires blacklists the path
whatever follows it in the deny list. -/
theorem filter_eligibility_witness :
    isBlacklisted [fun s => s == "c.tmp", fun _ => false] "c.tmp" = true :=
  (filter_eligibility [fun s => s == "c.tmp", fun _ => false] [] "c.tmp").2
    (fun s => s == "c.tmp") (by decide) [fun _ => false]

/-- C3: for a non-empty path, SyncFile dispatches on the lower-cased
extension: audio extensions go to SendAudio, photo extensions to
SendPhoto, video extensions to SendVideo, and everything else
(including no extension) to SendDocument; in every case the caption
handed to the Uploader is "File: " followed by the base name. -/
theorem syncFile_classification {α : Type} (bot : Uploader α) (chatID filePath : String)
    (h : filePath ≠ "") :
    (goToLower (goExt filePath) ∈ audioExts →
      syncFile bot chatID filePath =
        sendOutcome (bot.sendAudio chatID filePath ("File: " ++ goBase filePath))
          "failed to send audio: ")
  ∧ (goToLower (goExt filePath) ∉ audioExts →
     goToLower (goExt filePath) ∈ photoExts →
      syncFile bot chatID filePath =
        sendOutcome (bot.sendPhoto chatID filePath ("File: " ++ goBase filePath))
          "failed to send photo: ")
  ∧ (goToLower (goExt filePath) ∉ audioExts →
     goToLower (goExt filePath) ∉ photoExts →
     goToLower (goExt filePath) ∈ videoExts →
      syncFile bot chatID filePath =
        sendOutcome (bot.sendVideo chatID filePath ("File: " ++ goBase filePath))
          "failed to send video: ")
  ∧ (goToLower (goExt filePath) ∉ audioExts →
     goToLower (goExt filePath) ∉ photoExts →
     goToLower (goExt filePath) ∉ videoExts →
      syncFile bot chatID filePath =
        sendOutcome (bot.sendDocument chatID filePath ("File: " ++ goBase filePath))
          "failed to send document: ") := by
  refine ⟨?_, ?_, ?_, ?_⟩
  · intro ha
    simp [syncFile, h, ha]
  · intro ha hp
    simp [syncFile, h, ha, hp]
  · intro ha hp hv
    simp [syncFile, h, ha, hp, hv]
  · intro ha hp hv
    simp [syncFile, h, ha, hp, hv]

/-- C3 witness: an mp3 path goes through the audio branch with caption
built from the base name; a recording Uploader shows the caption. -/
theorem syncFile_classification_witness :
    syncFile
      (Uploader.mk (fun _ _ cap => Except.error cap) (fun _ _ _ => Except.ok "p")
        (fun _ _ _ => Except.ok "v") (fun _ _ _ => Except.ok "d"))
      "chat" "/data/b.MP3"
      = some "failed to send audio: File: b.MP3" := by
  have h := (syncFile_classification
    (Uploader.mk (fun _ _ cap => Except.error cap) (fun _ _ _ => Except.ok "p")
      (fun _ _ _ => Except.ok "v") (fun _ _ _ => Except.ok "d"))
    "chat" "/data/b.MP3" (by decide)).1 (by decide)
  rw [h]
  rfl

/-- C5: AddDir fails exactly when the path is not yet registered and
the stat fails or reports a non-directory; registering an
already-registered path succeeds, changes nothing and consults the
filesystem not at all; and a successful registration leaves at most one
registry entry for the path and exactly the old count for every other
path. -/
theorem addDir_spec (stat : String → Option FileInfo) (watchedDirs : List String)
    (p : String) (hcount : watchedDirs.count p ≤ 1) :
    ((∃ e, addDir stat watchedDirs p = Except.error e) ↔
      watchedDirs.contains p = false ∧
        (stat p = none ∨ ∃ info, stat p = some info ∧ info.isDir = false))
  ∧ (watchedDirs.contains p = true →
      ∀ stat2 : String → Option FileInfo, addDir stat2 watchedDirs p = Except.ok watchedDirs)
  ∧ (∀ dirs2, addDir stat watchedDirs p = Except.ok dirs2 →
      dirs2.count p ≤ 1 ∧ ∀ q, q ≠ p → dirs2.count q = watchedDirs.count q) := by
  by_cases hc : watchedDirs.contains p = true
  · refine ⟨?_, ?_, ?_⟩
    · rw [addDir, if_pos hc]
      constructor
      · rintro ⟨e, he⟩
        cases he
      · rintro ⟨hfalse, -⟩
        rw [hc] at hfalse
        cases hfalse
    · intro _ stat2
      rw [addDir, if_pos hc]
    · intro dirs2 hok
      rw [addDir, if_pos hc] at hok
      cases hok
      exact ⟨hcount, fun q _ => rfl⟩
  · have hc2 : watchedDirs.contains p = false := by
      revert hc
      cases watchedDirs.contains p <;> simp
    have hnotmem : p ∉ watchedDirs := by
      simpa using hc2
    refine ⟨?_, ?_, ?_⟩
    · rw [addDir, if_neg hc]
      constructor
      · rintro ⟨e, he⟩
        refine ⟨hc2, ?_⟩
        split at he
        · rename_i hstat
          exact Or.inl hstat
        · rename_i info hstat
          right
          refine ⟨info, hstat, ?_⟩
          split at he
          · rename_i hdir
            revert hdir
            cases info.isDir <;> simp
          · cases he
      · rintro ⟨-, hbad⟩
        rcases hbad with hnone | ⟨info, hsome, hdir⟩
        · rw [hnone]
          exact ⟨_, rfl⟩
        · rw [hsome]
          show ∃ e,
            (if (!info.isDir) = true then
              Except.error ("path is not a directory: " ++ p)
            else Except.ok (watchedDirs ++ [p])) = Except.error e
          rw [hdir]
          exact ⟨_, rfl⟩
    · intro hcon
      rw [hcon] at hc2
      cases hc2
    · intro dirs2 hok
      rw [addDir, if_neg hc] at hok
      split at hok
      · cases hok
      · split at hok
        · cases hok
        · cases hok
          constructor
          · rw [List.count_append]
            have h0 : watchedDirs.count p = 0 := List.count_eq_zero.mpr hnotmem
            simp [h0]
          · intro q hq
            rw [List.count_append]
            have h1 : List.count q [p] = 0 := by
              rw [List.count_eq_zero]
              simpa using hq
            rw [h1]
            omega

/-- C5 witness: registering a fresh directory succeeds and keeps counts
right, and registering it again succeeds without touching the
filesystem. -/
theorem addDir_spec_witness :
    addDir (fun _ => some ⟨0, 0, true⟩) ["/data"] "/data" = Except.ok ["/data"] :=
  (addDir_spec (fun _ => some ⟨0, 0, true⟩) ["/data"] "/data" (by decide)).2.1
    (by decide) (fun _ => some ⟨0, 0, true⟩)

mutual
/-- The walk never produces an error: scanDirectory's callback returns
nil on every access error, so filepath.Walk's result is always nil. -/
theorem goWalkNode_err (files : List String) (n : WalkNode) :
    (goWalkNode files n).2 = none := by
  cases n with
  | inaccessible p => rfl
  | file p i => rw [goWalkNode, walkFn]
  | dir p i es =>
    rw [goWalkNode]
    show (match walkFn files p (some i) none with
      | (files2, some e) => (files2, some e)
      | (files2, none) => goWalkList files2 es).2 = none
    rw [walkFn]
    exact goWalkList_err _ es

/-- Walking an entry list never produces an error either. -/
theorem goWalkList_err (files : List String) (ns : List WalkNode) :
    (goWalkList files ns).2 = none := by
  cases ns with
  | nil => rfl
  | cons n rest =>
    rw [goWalkList]
    have hn := goWalkNode_err files n
    rcases hr : goWalkNode files n with ⟨files2, e2⟩
    rw [hr] at hn
    simp at hn
    rw [hn]
    simp only []
    exact goWalkList_err files2 rest
end

/-- An inaccessible entry in a directory listing contributes nothing:
the walk of the remaining entries is unchanged. -/
theorem goWalkList_skip (xs : List WalkNode) (p : String) (ys : List WalkNode)
    (files : List String) :
    goWalkList files (xs ++ WalkNode.inaccessible p :: ys) =
      goWalkList files (xs ++ ys) := by
  induction xs generalizing files with
  | nil =>
    rw [List.nil_append, List.nil_append, goWalkList]
    rfl
  | cons x rest ih =>
    rw [List.cons_append, List.cons_append, goWalkList, goWalkList]
    have hn := goWalkNode_err files x
    rcases hr : goWalkNode files x with ⟨files2, e2⟩
    rw [hr] at hn
    simp at hn
    rw [hn]
    simp only []
    exact ih files2

/-- C8 counterexample: when the root itself is inaccessible, the walk
callback swallows the root error too, so scanDirectory reports an empty
listing and a nil error instead of surfacing the failure. -/
theorem scanDirectory_root_error_not_surfaced :
    scanDirectory (WalkNode.inaccessible "/data") = ([], none) := rfl

/-- C8 amended: a per-entry access error makes the walk skip exactly
that entry and continue (at the entry-list and at the scanDirectory
level), and a root-path error is swallowed just the same: scanDirectory
then returns an empty list and a nil error, and in fact never returns a
non-nil error for any tree. -/
theorem scanDirectory_error_handling :
    (∀ (files : List String) (xs ys : List WalkNode) (p : String),
      goWalkList files (xs ++ WalkNode.inaccessible p :: ys) =
        goWalkList files (xs ++ ys))
  ∧ (∀ (rootPath : String) (i : FileInfo) (xs ys : List WalkNode) (p : String),
      scanDirectory (WalkNode.dir rootPath i (xs ++ WalkNode.inaccessible p :: ys)) =
        scanDirectory (WalkNode.dir rootPath i (xs ++ ys)))
  ∧ (∀ p, scanDirectory (WalkNode.inaccessible p) = ([], none))
  ∧ (∀ root, (scanDirectory root).2 = none) := by
  refine ⟨fun files xs ys p => goWalkList_skip xs p ys files, ?_, fun p => rfl,
    fun root => goWalkNode_err [] root⟩
  intro rootPath i xs ys p
  rw [scanDirectory, scanDirectory, goWalkNode, goWalkNode]
  show (match walkFn [] rootPath (some i) none with
      | (files2, some e) => (files2, some e)
      | (files2, none) => goWalkList files2 (xs ++ WalkNode.inaccessible p :: ys)) =
    (match walkFn [] rootPath (some i) none with
      | (files2, some e) => (files2, some e)
      | (files2, none) => goWalkList files2 (xs ++ ys))
  rw [walkFn]
  exact goWalkList_skip xs p ys _

/-- C10: GetUpdatedFiles returns a nil error for every watcher state
and every filesystem snapshot, and the per-directory scan it guards on
never errors either, so its skip branch and the error branches at its
call sites are dead. -/
theorem getUpdatedFiles_never_errors (tree : String → WalkNode)
    (stat : String → Option FileInfo) (bl wl : List (String → Bool)) (now : Nat)
    (dirs : List String) (wf : FileMap) :
    (getUpdatedFiles tree stat bl wl now dirs wf).2.2 = none ∧
    ∀ dirPath, (scanDirectory (tree dirPath)).2 = none :=
  ⟨rfl, fun dirPath => goWalkNode_err [] (tree dirPath)⟩

/-- The per-file step leaves every other path's record alone. -/
theorem processFile_map_ne (stat : String → Option FileInfo)
    (bl wl : List (String → Bool)) (now : Nat) (m : FileMap) (acc : List String)
    (q p : String) (hne : p ≠ q) :
    (processFile stat bl wl now m acc q).1 p = m p := by
  rw [processFile]
  cases stat q with
  | none => rfl
  | some info =>
    simp only []
    split
    · rfl
    · split
      · simp [hne]
      · split
        · simp [hne]
        · rfl

/-- The per-file step either keeps the report list or appends exactly
the processed path. -/
theorem processFile_acc (stat : String → Option FileInfo)
    (bl wl : List (String → Bool)) (now : Nat) (m : FileMap) (acc : List String)
    (q : String) :
    (processFile stat bl wl now m acc q).2 = acc ∨
    (processFile stat bl wl now m acc q).2 = acc ++ [q] := by
  rw [processFile]
  cases stat q with
  | none => exact Or.inl rfl
  | some info =>
    simp only []
    split
    · exact Or.inl rfl
    · split
      · exact Or.inr rfl
      · split
        · exact Or.inr rfl
        · exact Or.inl rfl

/-- A path whose record already matches the snapshot is left entirely
alone by the per-file step, whatever the clock says. -/
theorem processFile_self_current (stat : String → Option FileInfo)
    (bl wl : List (String → Bool)) (now : Nat) (m : FileMap) (acc : List String)
    (p : String) (hcur : entryCurrent stat p (m p)) :
    processFile stat bl wl now m acc p = (m, acc) := by
  rw [processFile]
  cases hstat : stat p with
  | none => rfl
  | some info =>
    simp only []
    split
    · rfl
    · obtain ⟨r, hr, hnc⟩ := hcur info hstat
      rw [hr]
      simp only []
      rw [if_neg hnc]

/-- A path the filter gate rejects is left entirely alone by the
per-file step. -/
theorem processFile_self_rejected (stat : String → Option FileInfo)
    (bl wl : List (String → Bool)) (now : Nat) (m : FileMap) (acc : List String)
    (p : String) (hrej : (isBlacklisted bl p || !(isWhitelisted wl p)) = true) :
    processFile stat bl wl now m acc p = (m, acc) := by
  rw [processFile]
  cases stat p with
  | none => rfl
  | some info =>
    simp only []
    rw [if_pos hrej]

/-- The per-file step either changes nothing, or it stores a record
carrying the snapshot's modification time and size and appends the
path to the report list. -/
theorem processFile_result (stat : String → Option FileInfo)
    (bl wl : List (String → Bool)) (now : Nat) (m : FileMap) (acc : List String)
    (q : String) :
    processFile stat bl wl now m acc q = (m, acc) ∨
    ∃ info, stat q = some info ∧
      (∃ pth, (processFile stat bl wl now m acc q).1 q =
        some ⟨info.modTime, now, pth, info.size⟩) ∧
      (processFile stat bl wl now m acc q).2 = acc ++ [q] := by
  rw [processFile]
  cases hstat : stat q with
  | none => exact Or.inl rfl
  | some info =>
    simp only []
    split
    · exact Or.inl rfl
    · split
      · refine Or.inr ⟨info, rfl, ⟨q, ?_⟩, rfl⟩
        simp
      · split
        · rename_i w heq hmod
          refine Or.inr ⟨info, rfl, ⟨w.path, ?_⟩, rfl⟩
          simp
        · exact Or.inl rfl

/-- Folding a step that neither moves the record at p nor changes
whether p is reported (given an invariant on the record at p) keeps
both across the whole fold. -/
theorem foldl_keep {β : Type} (g : (FileMap × List String) → β → FileMap × List String)
    (p : String) (P : Option WatchedFile → Prop)
    (hstep : ∀ st b, P (st.1 p) →
      (g st b).1 p = st.1 p ∧ (p ∈ (g st b).2 ↔ p ∈ st.2)) :
    ∀ (bs : List β) (st : FileMap × List String), P (st.1 p) →
      (bs.foldl g st).1 p = st.1 p ∧ (p ∈ (bs.foldl g st).2 ↔ p ∈ st.2) := by
  intro bs
  induction bs with
  | nil => exact fun st _ => ⟨rfl, Iff.rfl⟩
  | cons b rest ih =>
    intro st hP
    obtain ⟨heq, hmem⟩ := hstep st b hP
    have hP2 : P ((g st b).1 p) := by
      rw [heq]
      exact hP
    obtain ⟨heq2, hmem2⟩ := ih (g st b) hP2
    rw [List.foldl_cons]
    exact ⟨heq2.trans heq, hmem2.trans hmem⟩

/-- If the step can only report p while leaving its record satisfying Q,
and Q freezes the record and the report status, then a p reported by a
whole fold left a Q-record behind. -/
theorem foldl_establish {β : Type}
    (g : (FileMap × List String) → β → FileMap × List String)
    (p : String) (Q : Option WatchedFile → Prop)
    (hstep : ∀ st b, p ∈ (g st b).2 → p ∈ st.2 ∨ Q ((g st b).1 p))
    (hkeep : ∀ st b, Q (st.1 p) →
      (g st b).1 p = st.1 p ∧ (p ∈ (g st b).2 ↔ p ∈ st.2)) :
    ∀ (bs : List β) (st : FileMap × List String), p ∈ (bs.foldl g st).2 →
      p ∈ st.2 ∨ Q ((bs.foldl g st).1 p) := by
  intro bs
  induction bs with
  | nil => exact fun st h => Or.inl h
  | cons b rest ih =>
    intro st h
    rw [List.foldl_cons] at h ⊢
    rcases ih (g st b) h with h2 | hQ
    · rcases hstep st b h2 with h3 | hQ2
      · exact Or.inl h3
      · right
        obtain ⟨heq, -⟩ := foldl_keep g p Q hkeep rest (g st b) hQ2
        rw [heq]
        exact hQ2
    · exact Or.inr hQ

/-- Step property at the file level: a current record freezes the
per-file step at p. -/
theorem fileStep_keep_current (stat : String → Option FileInfo)
    (bl wl : List (String → Bool)) (now : Nat) (p : String) :
    ∀ (st : FileMap × List String) (q : String), entryCurrent stat p (st.1 p) →
      ((processFile stat bl wl now st.1 st.2 q).1 p = st.1 p ∧
       (p ∈ (processFile stat bl wl now st.1 st.2 q).2 ↔ p ∈ st.2)) := by
  intro st q hcur
  by_cases hpq : p = q
  · subst hpq
    rw [processFile_self_current stat bl wl now st.1 st.2 p hcur]
    exact ⟨rfl, Iff.rfl⟩
  · refine ⟨processFile_map_ne stat bl wl now st.1 st.2 q p hpq, ?_⟩
    rcases processFile_acc stat bl wl now st.1 st.2 q with h | h <;> rw [h]
    simp [hpq]

/-- Step property at the file level: a rejected path freezes the
per-file step at p unconditionally. -/
theorem fileStep_keep_rejected (stat : String → Option FileInfo)
    (bl wl : List (String → Bool)) (now : Nat) (p : String)
    (hrej : (isBlacklisted bl p || !(isWhitelisted wl p)) = true) :
    ∀ (st : FileMap × List String) (q : String), True →
      ((processFile stat bl wl now st.1 st.2 q).1 p = st.1 p ∧
       (p ∈ (processFile stat bl wl now st.1 st.2 q).2 ↔ p ∈ st.2)) := by
  intro st q _
  by_cases hpq : p = q
  · subst hpq
    rw [processFile_self_rejected stat bl wl now st.1 st.2 p hrej]
    exact ⟨rfl, Iff.rfl⟩
  · refine ⟨processFile_map_ne stat bl wl now st.1 st.2 q p hpq, ?_⟩
    rcases processFile_acc stat bl wl now st.1 st.2 q with h | h <;> rw [h]
    simp [hpq]

/-- Step property at the file level: reporting p stores a record that
matches the snapshot. -/
theorem fileStep_establish (stat : String → Option FileInfo)
    (bl wl : List (String → Bool)) (now : Nat) (p : String) :
    ∀ (st : FileMap × List String) (q : String),
      p ∈ (processFile stat bl wl now st.1 st.2 q).2 →
      p ∈ st.2 ∨ entryCurrent stat p ((processFile stat bl wl now st.1 st.2 q).1 p) := by
  intro st q hmem
  rcases processFile_result stat bl wl now st.1 st.2 q with
    heq | ⟨info, hstat, ⟨pth, hrec⟩, hacc⟩
  · rw [heq] at hmem
    exact Or.inl hmem
  · rw [hacc] at hmem
    rcases List.mem_append.mp hmem with h | h
    · exact Or.inl h
    · have hpq : p = q := by simpa using h
      subst hpq
      right
      intro info2 hstat2
      rw [hstat] at hstat2
      injection hstat2 with h3
      subst h3
      refine ⟨_, hrec, ?_⟩
      simp

/-- Lift a freezing step property from the per-file step to the
per-directory pass. -/
theorem dirStep_keep (tree : String → WalkNode) (stat : String → Option FileInfo)
    (bl wl : List (String → Bool)) (now : Nat) (p : String)
    (P : Option WatchedFile → Prop)
    (hfile : ∀ (st : FileMap × List String) (q : String), P (st.1 p) →
      ((processFile stat bl wl now st.1 st.2 q).1 p = st.1 p ∧
       (p ∈ (processFile stat bl wl now st.1 st.2 q).2 ↔ p ∈ st.2))) :
    ∀ (st : FileMap × List String) (d : String), P (st.1 p) →
      ((processDir tree stat bl wl now st d).1 p = st.1 p ∧
       (p ∈ (processDir tree stat bl wl now st d).2 ↔ p ∈ st.2)) := by
  intro st d hP
  rw [processDir]
  split
  · exact ⟨rfl, Iff.rfl⟩
  · exact foldl_keep _ p P (fun st2 b hP2 => hfile st2 b hP2) _ st hP

/-- Lift the establishing step property from the per-file step to the
per-directory pass. -/
theorem dirStep_establish (tree : String → WalkNode) (stat : String → Option FileInfo)
    (bl wl : List (String → Bool)) (now : Nat) (p : String) :
    ∀ (st : FileMap × List String) (d : String),
      p ∈ (processDir tree stat bl wl now st d).2 →
      p ∈ st.2 ∨ entryCurrent stat p ((processDir tree stat bl wl now st d).1 p) := by
  intro st d hmem
  rw [processDir] at hmem ⊢
  split at hmem
  · exact Or.inl hmem
  · exact foldl_establish _ p (entryCurrent stat p)
      (fun st2 b => fileStep_establish stat bl wl now p st2 b)
      (fun st2 b => fileStep_keep_current stat bl wl now p st2 b) _ st hmem

/-- C4: a path the Filter Policy rejects (blacklist-matched or not
whitelist-matched) never appears in a GetUpdatedFiles result, for every
filesystem snapshot, and its watchedFiles record is never touched or
created. -/
theorem rejected_never_reported (tree : String → WalkNode)
    (stat : String → Option FileInfo) (bl wl : List (String → Bool)) (now : Nat)
    (dirs : List String) (wf : FileMap) (p : String)
    (hrej : (isBlacklisted bl p || !(isWhitelisted wl p)) = true) :
    p ∉ (getUpdatedFiles tree stat bl wl now dirs wf).1 ∧
    (getUpdatedFiles tree stat bl wl now dirs wf).2.1 p = wf p := by
  have h := foldl_keep (processDir tree stat bl wl now) p (fun _ => True)
    (fun st d _ => dirStep_keep tree stat bl wl now p (fun _ => True)
      (fun st2 q _ => fileStep_keep_rejected stat bl wl now p hrej st2 q trivial)
      st d trivial)
    dirs (wf, []) trivial
  exact ⟨fun hin => absurd (h.2.mp hin) (List.not_mem_nil p), h.1⟩

/-- C4 witness: with deny matcher for the path /d/c.tmp, the file is
present on disk yet never reported. -/
theorem rejected_never_reported_witness :
    "/d/c.tmp" ∉ (getUpdatedFiles
      (fun _ => WalkNode.dir "/d" ⟨0, 0, true⟩ [WalkNode.file "/d/c.tmp" ⟨5, 9, false⟩])
      (fun q => if q = "/d/c.tmp" then some ⟨5, 9, false⟩ else none)
      [fun s => s == "/d/c.tmp"] [] 7 ["/d"] (fun _ => none)).1 :=
  (rejected_never_reported
    (fun _ => WalkNode.dir "/d" ⟨0, 0, true⟩ [WalkNode.file "/d/c.tmp" ⟨5, 9, false⟩])
    (fun q => if q = "/d/c.tmp" then some ⟨5, 9, false⟩ else none)
    [fun s => s == "/d/c.tmp"] [] 7 ["/d"] (fun _ => none) "/d/c.tmp" (by decide)).1

/-- C6: the watcher map that syncDirectoryOnce leaves behind is exactly
the one GetUpdatedFiles produced, whatever the Uploader does (records
are updated during the Diff pass, before and independent of dispatch);
consequently a path reported once is not reported by a later Diff over
an unchanged filesystem snapshot, so a failed upload is not retried. -/
theorem record_updated_before_dispatch {α : Type} (tree : String → WalkNode)
    (stat : String → Option FileInfo) (bl wl : List (String → Bool))
    (now now2 : Nat) (bot : Uploader α) (chatID : String) (ctxDone : Bool)
    (dirs : List String) (wf : FileMap) (p : String)
    (hrep : p ∈ (getUpdatedFiles tree stat bl wl now dirs wf).1) :
    (syncDirectoryOnce tree stat bl wl now bot chatID ctxDone dirs wf).1 =
      (getUpdatedFiles tree stat bl wl now dirs wf).2.1 ∧
    p ∉ (getUpdatedFiles tree stat bl wl now2 dirs
        (getUpdatedFiles tree stat bl wl now dirs wf).2.1).1 := by
  refine ⟨rfl, ?_⟩
  have hest := foldl_establish (processDir tree stat bl wl now) p (entryCurrent stat p)
    (fun st d => dirStep_establish tree stat bl wl now p st d)
    (fun st d => dirStep_keep tree stat bl wl now p (entryCurrent stat p)
      (fun st2 q => fileStep_keep_current stat bl wl now p st2 q) st d)
    dirs (wf, []) hrep
  rcases hest with h | hcur
  · exact absurd h (List.not_mem_nil p)
  · have hkeep := foldl_keep (processDir tree stat bl wl now2) p (entryCurrent stat p)
      (fun st d => dirStep_keep tree stat bl wl now2 p (entryCurrent stat p)
        (fun st2 q => fileStep_keep_current stat bl wl now2 p st2 q) st d)
      dirs ((getUpdatedFiles tree stat bl wl now dirs wf).2.1, []) hcur
    exact fun hin => absurd (hkeep.2.mp hin) (List.not_mem_nil p)

/-- C6 witness: a file reported in a first pass (and whose upload
fails) is absent from a second pass over the unchanged snapshot. -/
theorem record_updated_before_dispatch_witness :
    "/d/a.txt" ∉ (getUpdatedFiles
      (fun _ => WalkNode.dir "/d" ⟨0, 0, true⟩ [WalkNode.file "/d/a.txt" ⟨3, 5, false⟩])
      (fun q => if q = "/d/a.txt" then some ⟨3, 5, false⟩ else none)
      [] [] 9 ["/d"]
      (getUpdatedFiles
        (fun _ => WalkNode.dir "/d" ⟨0, 0, true⟩ [WalkNode.file "/d/a.txt" ⟨3, 5, false⟩])
        (fun q => if q = "/d/a.txt" then some ⟨3, 5, false⟩ else none)
        [] [] 7 ["/d"] (fun _ => none)).2.1).1 :=
  (record_updated_before_dispatch
    (fun _ => WalkNode.dir "/d" ⟨0, 0, true⟩ [WalkNode.file "/d/a.txt" ⟨3, 5, false⟩])
    (fun q => if q = "/d/a.txt" then some ⟨3, 5, false⟩ else none)
    [] [] 7 9
    ((Uploader.mk (fun _ _ _ => Except.error "network") (fun _ _ _ => Except.error "network")
      (fun _ _ _ => Except.error "network") (fun _ _ _ => Except.error "network")) :
        Uploader String)
    "chat" false ["/d"] (fun _ => none) "/d/a.txt" (by decide)).2

/-- C1: for an eligible candidate path with a successful stat, the
per-path step of a Diff pass creates a record with the current size,
modification time and wall-clock time and reports the path when no
record exists; updates the record's size, modification time and
last-sync time and reports the path when the stored record is strictly
older or differs in size; leaves everything unchanged and omits the
path otherwise; other keys are never touched, and once the path has
been reported, re-running the step over the unchanged snapshot omits it
and changes nothing. -/
theorem diff_pass_per_path (stat : String → Option FileInfo)
    (bl wl : List (String → Bool)) (now : Nat) (m : FileMap) (acc : List String)
    (p : String) (info : FileInfo)
    (hstat : stat p = some info)
    (helig : (isBlacklisted bl p || !(isWhitelisted wl p)) = false) :
    (m p = none →
      (processFile stat bl wl now m acc p).1 p =
        some ⟨info.modTime, now, p, info.size⟩ ∧
      (processFile stat bl wl now m acc p).2 = acc ++ [p] ∧
      ∀ q, q ≠ p → (processFile stat bl wl now m acc p).1 q = m q)
  ∧ (∀ w, m p = some w → (w.modTime < info.modTime ∨ info.size ≠ w.size) →
      (processFile stat bl wl now m acc p).1 p =
        some ⟨info.modTime, now, w.path, info.size⟩ ∧
      (processFile stat bl wl now m acc p).2 = acc ++ [p] ∧
      ∀ q, q ≠ p → (processFile stat bl wl now m acc p).1 q = m q)
  ∧ (∀ w, m p = some w → ¬(w.modTime < info.modTime ∨ info.size ≠ w.size) →
      processFile stat bl wl now m acc p = (m, acc))
  ∧ ((processFile stat bl wl now m acc p).2 = acc ++ [p] →
      ∀ (now2 : Nat) (acc2 : List String),
        processFile stat bl wl now2 (processFile stat bl wl now m acc p).1 acc2 p =
          ((processFile stat bl wl now m acc p).1, acc2)) := by
  have hneg : ¬((isBlacklisted bl p || !(isWhitelisted wl p)) = true) := by
    rw [helig]
    simp
  refine ⟨?_, ?_, ?_, ?_⟩
  · intro hnone
    refine ⟨?_, ?_, fun q hq => processFile_map_ne stat bl wl now m acc p q hq⟩
    · simp only [processFile, hstat]
      rw [if_neg hneg, hnone]
      simp
    · simp only [processFile, hstat]
      rw [if_neg hneg, hnone]
  · intro w hsome hmod
    refine ⟨?_, ?_, fun q hq => processFile_map_ne stat bl wl now m acc p q hq⟩
    · simp only [processFile, hstat]
      rw [if_neg hneg, hsome]
      simp only []
      rw [if_pos hmod]
      simp
    · simp only [processFile, hstat]
      rw [if_neg hneg, hsome]
      simp only []
      rw [if_pos hmod]
  · intro w hsome hmod
    have hcur : entryCurrent stat p (m p) := by
      intro info2 hstat2
      rw [hstat] at hstat2
      injection hstat2 with h3
      subst h3
      exact ⟨w, hsome, hmod⟩
    exact processFile_self_current stat bl wl now m acc p hcur
  · intro hinc now2 acc2
    rcases processFile_result stat bl wl now m acc p with heq | ⟨info2, hstat2, ⟨pth, hrec⟩, -⟩
    · rw [heq] at hinc
      simp at hinc
    · have hcur : entryCurrent stat p ((processFile stat bl wl now m acc p).1 p) := by
        intro info3 hstat3
        rw [hstat2] at hstat3
        injection hstat3 with h3
        subst h3
        refine ⟨_, hrec, ?_⟩
        simp
      exact processFile_self_current stat bl wl now2
        (processFile stat bl wl now m acc p).1 acc2 p hcur

/-- C1 witness: a fresh eligible file is recorded with the snapshot
values and reported. -/
theorem diff_pass_per_path_witness :
    (processFile (fun q => if q = "/d/a.txt" then some ⟨3, 5, false⟩ else none)
      [] [] 7 (fun _ => none) [] "/d/a.txt").2 = [] ++ ["/d/a.txt"] :=
  ((diff_pass_per_path (fun q => if q = "/d/a.txt" then some ⟨3, 5, false⟩ else none)
    [] [] 7 (fun _ => none) [] "/d/a.txt" ⟨3, 5, false⟩ (by decide) (by decide)).1
    rfl).2.1

/-- With the context live, the dispatch loop attempts every non-empty
path of the batch exactly once, in order, and ends with a nil error,
whatever each SyncFile call returns. -/
theorem syncLoop_live {α : Type} (bot : Uploader α) (chatID : String)
    (files : List String) :
    syncLoop bot chatID false files =
      ((files.filter (fun q => decide (q ≠ ""))).map
        (fun q => (q, syncFile bot chatID q)), none) := by
  induction files with
  | nil => rfl
  | cons f rest ih =>
    by_cases h : f = ""
    · subst h
      rw [syncLoop, if_pos rfl, ih]
      simp
    · rw [syncLoop, if_neg h]
      simp only [Bool.false_eq_true, reduceIte, ih]
      simp [h]

/-- C7: when the dispatch of one file in a batch fails, the cycle does
not abort: every non-empty file of the batch (the failed one included,
exactly once) is dispatched in order, the files after the failed one
are still attempted, and the cycle finishes with a nil error. -/
theorem dispatch_error_continues {α : Type} (bot : Uploader α) (chatID : String)
    (pre post : List String) (p e : String)
    (hp : p ≠ "") (hfail : syncFile bot chatID p = some e) :
    syncLoop bot chatID false (pre ++ p :: post) =
      (((pre ++ p :: post).filter (fun q => decide (q ≠ ""))).map
        (fun q => (q, syncFile bot chatID q)), none) ∧
    (p, some e) ∈ (syncLoop bot chatID false (pre ++ p :: post)).1 ∧
    ∀ q ∈ post, q ≠ "" →
      (q, syncFile bot chatID q) ∈ (syncLoop bot chatID false (pre ++ p :: post)).1 := by
  refine ⟨syncLoop_live bot chatID (pre ++ p :: post), ?_, ?_⟩
  · rw [syncLoop_live]
    simp only []
    refine List.mem_map.mpr ⟨p, ?_, by rw [hfail]⟩
    rw [List.mem_filter]
    constructor
    · simp
    · simpa using hp
  · intro q hq hqe
    rw [syncLoop_live]
    simp only []
    refine List.mem_map.mpr ⟨q, ?_, rfl⟩
    rw [List.mem_filter]
    constructor
    · simp [hq]
    · simpa using hqe

/-- C7 witness: the failing png is attempted and the following file is
still dispatched in the same batch. -/
theorem dispatch_error_continues_witness :
    ("e.txt", syncFile
      ((Uploader.mk (fun _ _ _ => Except.ok 0) (fun _ _ _ => Except.error "boom")
        (fun _ _ _ => Except.ok 0) (fun _ _ _ => Except.ok 0)) : Uploader Int)
      "chat" "e.txt") ∈
    (syncLoop
      ((Uploader.mk (fun _ _ _ => Except.ok 0) (fun _ _ _ => Except.error "boom")
        (fun _ _ _ => Except.ok 0) (fun _ _ _ => Except.ok 0)) : Uploader Int)
      "chat" false (["a.txt"] ++ "d.png" :: ["e.txt"])).1 :=
  (dispatch_error_continues
    ((Uploader.mk (fun _ _ _ => Except.ok 0) (fun _ _ _ => Except.error "boom")
      (fun _ _ _ => Except.ok 0) (fun _ _ _ => Except.ok 0)) : Uploader Int)
    "chat" ["a.txt"] ["e.txt"] "d.png" "failed to send photo: boom"
    (by decide) (by rfl)).2.2 "e.txt" (by decide) (by decide)

/-- Cancellation is monotone: no step ever revives a cancelled
context. -/
theorem syncStep_cancelled_mono {s s2 : SyncSys} {l : SyncLabel}
    (h : SyncStep s l s2) (hc : s.cancelled = true) : s2.cancelled = true := by
  cases h <;> first | exact hc | rfl

/-- After cancellation, no trace contains a dispatch event: every
per-file check sees ctx.Done and abandons the cycle instead. -/
theorem syncSteps_no_dispatch : ∀ {s s2 : SyncSys} {ls : List SyncLabel},
    SyncSteps s ls s2 → s.cancelled = true →
    ∀ i p, SyncLabel.dispatch i p ∉ ls := by
  intro s s2 ls h
  induction h with
  | refl s =>
    intro hc i p hmem
    cases hmem
  | head s s2 s3 l ls hstep hsteps ih =>
    intro hc i p hmem
    rcases List.mem_cons.mp hmem with heq | hmem2
    · subst heq
      cases hstep
      simp_all
    · exact ih (syncStep_cancelled_mono hstep hc) i p hmem2

/-- One step preserves the Stop invariant: once wg.Wait has returned,
the context is cancelled and every poller has exited. -/
theorem syncStep_inv {s s2 : SyncSys} {l : SyncLabel} (h : SyncStep s l s2)
    (hinv : s.stopReturned = true →
      s.cancelled = true ∧ ∀ ph ∈ s.pollers, ph = PollerPhase.exited) :
    s2.stopReturned = true →
      s2.cancelled = true ∧ ∀ ph ∈ s2.pollers, ph = PollerPhase.exited := by
  cases h with
  | tick i batch hget =>
    intro hsr
    obtain ⟨hc, hall⟩ := hinv hsr
    exact absurd (hall _ (List.get?_mem hget)) (by intro hbad; cases hbad)
  | observeDone i hc0 hget =>
    intro hsr
    obtain ⟨hc, hall⟩ := hinv hsr
    exact absurd (hall _ (List.get?_mem hget)) (by intro hbad; cases hbad)
  | skipEmpty i rest hget =>
    intro hsr
    obtain ⟨hc, hall⟩ := hinv hsr
    exact absurd (hall _ (List.get?_mem hget)) (by intro hbad; cases hbad)
  | dispatch i p rest hne hcf hget =>
    intro hsr
    obtain ⟨hc, hall⟩ := hinv hsr
    exact absurd (hall _ (List.get?_mem hget)) (by intro hbad; cases hbad)
  | abandonCycle i p rest hne hc0 hget =>
    intro hsr
    obtain ⟨hc, hall⟩ := hinv hsr
    exact absurd (hall _ (List.get?_mem hget)) (by intro hbad; cases hbad)
  | cycleEnd i hget =>
    intro hsr
    obtain ⟨hc, hall⟩ := hinv hsr
    exact absurd (hall _ (List.get?_mem hget)) (by intro hbad; cases hbad)
  | cancel =>
    intro hsr
    obtain ⟨hc, hall⟩ := hinv hsr
    exact ⟨rfl, hall⟩
  | stopReturn hc hall =>
    intro _
    exact ⟨hc, hall⟩

/-- The Stop invariant holds along every trace whose start satisfies
it. -/
theorem syncSteps_inv : ∀ {s0 s : SyncSys} {ls : List SyncLabel}, SyncSteps s0 ls s →
    (s0.stopReturned = true →
      s0.cancelled = true ∧ ∀ ph ∈ s0.pollers, ph = PollerPhase.exited) →
    s.stopReturned = true →
      s.cancelled = true ∧ ∀ ph ∈ s.pollers, ph = PollerPhase.exited := by
  intro s0 s ls h
  induction h with
  | refl s => exact fun hinv => hinv
  | head s s2 s3 l ls hstep hsteps ih => exact fun hinv => ih (syncStep_inv hstep hinv)

/-- C9: along any execution from the initial sync-service state, once
the context is cancelled no dispatch event can ever occur again (each
poller's per-file shutdown check abandons the remainder of its cycle),
and whenever Stop has returned, the context is cancelled — so no
further dispatch occurs even if a timer fires — and every poller
goroutine has observed the signal and exited (the wait-all join). -/
theorem stop_halts_dispatch (n : Nat) (ls : List SyncLabel) (s : SyncSys)
    (hreach : SyncSteps (syncInit n) ls s) :
    (s.cancelled = true → ∀ (ls2 : List SyncLabel) (s2 : SyncSys),
      SyncSteps s ls2 s2 → ∀ i p, SyncLabel.dispatch i p ∉ ls2)
  ∧ (s.stopReturned = true →
      s.cancelled = true ∧ ∀ ph ∈ s.pollers, ph = PollerPhase.exited) := by
  constructor
  · intro hc ls2 s2 h2 i p
    exact syncSteps_no_dispatch h2 hc i p
  · exact syncSteps_inv hreach (by intro hbad; cases hbad)

/-- C9 witness: a concrete run — Stop cancels, the only poller observes
the signal and exits, wg.Wait returns — after which the theorem yields
that no continuation trace dispatches anything. -/
theorem stop_halts_dispatch_witness :
    SyncLabel.dispatch 0 "d.png" ∉ ([] : List SyncLabel) := by
  have h1 : SyncStep (syncInit 1) SyncLabel.cancel
      ⟨true, false, [PollerPhase.selecting]⟩ :=
    SyncStep.cancel (syncInit 1)
  have h2 : SyncStep ⟨true, false, [PollerPhase.selecting]⟩ (SyncLabel.observeDone 0)
      ⟨true, false, [PollerPhase.exited]⟩ :=
    SyncStep.observeDone ⟨true, false, [PollerPhase.selecting]⟩ 0 rfl rfl
  have h3 : SyncStep ⟨true, false, [PollerPhase.exited]⟩ SyncLabel.stopReturn
      ⟨true, true, [PollerPhase.exited]⟩ :=
    SyncStep.stopReturn ⟨true, false, [PollerPhase.exited]⟩ rfl
      (by intro ph hph; simpa using hph)
  have hsteps : SyncSteps (syncInit 1)
      [SyncLabel.cancel, SyncLabel.observeDone 0, SyncLabel.stopReturn]
      ⟨true, true, [PollerPhase.exited]⟩ :=
    SyncSteps.head _ _ _ _ _ h1 (SyncSteps.head _ _ _ _ _ h2
      (SyncSteps.head _ _ _ _ _ h3 (SyncSteps.refl _)))
  exact (stop_halts_dispatch 1 _ _ hsteps).1 rfl []
    ⟨true, true, [PollerPhase.exited]⟩ (SyncSteps.refl _) 0 "d.png"
